import Mathlib

set_option autoImplicit false

/-!
Verification of the rust-os kernel specification against its source.

Shallow embedding of the parts of the kernel the claims are about:

* the segregated fixed-size block allocator
  (src/blog_os/multitasking/src/allocator/fixed_size_block.rs),
* the linked-list fallback allocator
  (src/memory/src/allocator/linked_list.rs),
* the boot-info frame allocator (src/memory/src/memory.rs),
* the async executor (src/multitasking/src/task/executor.rs),
* the scancode stream (src/multitasking/src/task/keyboard.rs),
* the GDT/TSS and IDT configuration (src/interrupts/src/gdt.rs and
  src/blog_os/multitasking/src/interrupts.rs).

Machine integers (usize) are modelled as Nat; where the source relies on
wrapping 64-bit arithmetic this is made explicit with mod 2^64.
-/

/-- Rust `alloc::alloc::Layout`: an allocation size in bytes together with a
power-of-two alignment. -/
structure Layout where
  size : Nat
  align : Nat
deriving DecidableEq

/-- Translation of `Iterator::position`: the index of the first element of the
list satisfying the predicate, if any. -/
def position {α : Type} (p : α → Bool) : List α → Option Nat
  | [] => none
  | a :: as => if p a then some 0 else (position p as).map (· + 1)

/-! ## Fixed-size block allocator
(src/blog_os/multitasking/src/allocator/fixed_size_block.rs) -/

/-- The block sizes used by the fixed-size block allocator (`BLOCK_SIZES`).
Each is a power of two and acts as both size and alignment of its class. -/
def BLOCK_SIZES : List Nat := [8, 16, 32, 64, 128, 256, 512, 1024, 2048]

/-- Translation of `fn list_index`: index of the first block size that is at
least `max(layout.size, layout.align)`. -/
def list_index (l : Layout) : Option Nat :=
  position (fun s => l.size.max l.align ≤ s) BLOCK_SIZES

/-- Size in bytes of `fixed_size_block::ListNode` on x86_64: a single
single field holding an optional static mutable node pointer, one
64-bit pointer under the
guaranteed niche optimization. -/
def sizeOfFsbListNode : Nat := 8

/-- Alignment in bytes of `fixed_size_block::ListNode` on x86_64 (pointer
alignment). -/
def alignOfFsbListNode : Nat := 8

/-- Which path `GlobalAlloc::alloc` for `Locked<FixedSizeBlockAllocator>`
took: a block popped from a class free list, or a call into the fallback
allocator with a given layout. -/
inductive AllocRoute where
  | popped (index : Nat) (ptr : Nat)
  | fallbackCall (l : Layout)
deriving DecidableEq

/-- Which path `GlobalAlloc::dealloc` for `Locked<FixedSizeBlockAllocator>`
took: the freed block pushed onto a class free list (with the resulting
heads), or forwarded to the fallback allocator with a given layout. -/
inductive DeallocRoute where
  | toList (newHeads : List (List Nat))
  | toFallback (l : Layout)
deriving DecidableEq

/-- Translation of `GlobalAlloc::alloc` for `Locked<FixedSizeBlockAllocator>`.
The allocator state is the `list_heads` array, one LIFO list of free block
addresses per size class.  The fallback allocator
(`linked_list_allocator::Heap::allocate_first_fit`) is abstracted as a
function `fb` from a layout to the returned pointer (`none` models a null
return).  The result is the returned pointer, the new list heads, and the
route taken. -/
def FixedSizeBlockAllocator.alloc (fb : Layout → Option Nat)
    (heads : List (List Nat)) (l : Layout) :
    Option Nat × List (List Nat) × AllocRoute :=
  match list_index l with
  | some index =>
    match heads.getD index [] with
    | node :: rest =>
      (some node, heads.set index rest, AllocRoute.popped index node)
    | [] =>
      let block_size := BLOCK_SIZES.getD index 0
      let block_align := block_size
      (fb ⟨block_size, block_align⟩, heads,
        AllocRoute.fallbackCall ⟨block_size, block_align⟩)
  | none => (fb l, heads, AllocRoute.fallbackCall l)

/-- Translation of `GlobalAlloc::dealloc` for
`Locked<FixedSizeBlockAllocator>`.  Returns `none` when one of the two
asserts (node size and alignment fit in the class) fails, otherwise the
route taken. -/
def FixedSizeBlockAllocator.dealloc (heads : List (List Nat)) (ptr : Nat)
    (l : Layout) : Option DeallocRoute :=
  match list_index l with
  | some index =>
    if sizeOfFsbListNode ≤ BLOCK_SIZES.getD index 0 ∧
        alignOfFsbListNode ≤ BLOCK_SIZES.getD index 0 then
      some (DeallocRoute.toList
        (heads.set index (ptr :: heads.getD index [])))
    else
      none
  | none => some (DeallocRoute.toFallback l)

/-- Case analysis of `list_index` over the concrete block-size table. -/
lemma list_index_eq_cases (l : Layout) :
    list_index l =
      (if l.size.max l.align ≤ 8 then some 0
       else if l.size.max l.align ≤ 16 then some 1
       else if l.size.max l.align ≤ 32 then some 2
       else if l.size.max l.align ≤ 64 then some 3
       else if l.size.max l.align ≤ 128 then some 4
       else if l.size.max l.align ≤ 256 then some 5
       else if l.size.max l.align ≤ 512 then some 6
       else if l.size.max l.align ≤ 1024 then some 7
       else if l.size.max l.align ≤ 2048 then some 8
       else none) := by
  unfold list_index BLOCK_SIZES
  by_cases h1 : l.size.max l.align ≤ 8
  · simp [position, h1]
  by_cases h2 : l.size.max l.align ≤ 16
  · simp [position, h1, h2]
  by_cases h3 : l.size.max l.align ≤ 32
  · simp [position, h1, h2, h3]
  by_cases h4 : l.size.max l.align ≤ 64
  · simp [position, h1, h2, h3, h4]
  by_cases h5 : l.size.max l.align ≤ 128
  · simp [position, h1, h2, h3, h4, h5]
  by_cases h6 : l.size.max l.align ≤ 256
  · simp [position, h1, h2, h3, h4, h5, h6]
  by_cases h7 : l.size.max l.align ≤ 512
  · simp [position, h1, h2, h3, h4, h5, h6, h7]
  by_cases h8 : l.size.max l.align ≤ 1024
  · simp [position, h1, h2, h3, h4, h5, h6, h7, h8]
  by_cases h9 : l.size.max l.align ≤ 2048
  · simp [position, h1, h2, h3, h4, h5, h6, h7, h8, h9]
  simp [position, h1, h2, h3, h4, h5, h6, h7, h8, h9]

/-- Reading an element just written by `List.set`. -/
lemma getD_set_self {α : Type} (xs : List α) (i : Nat) (a d : α)
    (h : i < xs.length) : (xs.set i a).getD i d = a := by
  induction xs generalizing i with
  | nil => simp at h
  | cons x xs ih =>
    cases i with
    | zero => rfl
    | succ j => exact ih j (by simpa using h)

/-- Writing back the element already present leaves the list unchanged. -/
lemma set_getD_self {α : Type} (xs : List α) (i : Nat) (d : α)
    (h : i < xs.length) : xs.set i (xs.getD i d) = xs := by
  induction xs generalizing i with
  | nil => simp at h
  | cons x xs ih =>
    cases i with
    | zero => rfl
    | succ j => simpa using ih j (by simpa using h)

/-- Two writes to the same index collapse to the second one. -/
lemma set_set_self {α : Type} (xs : List α) (i : Nat) (a b : α) :
    (xs.set i a).set i b = xs.set i b := by
  induction xs generalizing i with
  | nil => rfl
  | cons x xs ih =>
    cases i with
    | zero => rfl
    | succ j => simp [ih j]

/-- Every index produced by `list_index` is a valid index into `BLOCK_SIZES`. -/
lemma list_index_lt_length {l : Layout} {i : Nat}
    (h : list_index l = some i) : i < BLOCK_SIZES.length := by
  rw [list_index_eq_cases] at h
  split_ifs at h <;> simp_all [BLOCK_SIZES] <;> omega

/-- Concrete values of the block-size table, one per valid index. -/
lemma blockSize_getD_0 : BLOCK_SIZES.getD 0 0 = 8 := rfl

/-- Concrete value of entry 1 of the block-size table. -/
lemma blockSize_getD_1 : BLOCK_SIZES.getD 1 0 = 16 := rfl

/-- Concrete value of entry 2 of the block-size table. -/
lemma blockSize_getD_2 : BLOCK_SIZES.getD 2 0 = 32 := rfl

/-- Concrete value of entry 3 of the block-size table. -/
lemma blockSize_getD_3 : BLOCK_SIZES.getD 3 0 = 64 := rfl

/-- Concrete value of entry 4 of the block-size table. -/
lemma blockSize_getD_4 : BLOCK_SIZES.getD 4 0 = 128 := rfl

/-- Concrete value of entry 5 of the block-size table. -/
lemma blockSize_getD_5 : BLOCK_SIZES.getD 5 0 = 256 := rfl

/-- Concrete value of entry 6 of the block-size table. -/
lemma blockSize_getD_6 : BLOCK_SIZES.getD 6 0 = 512 := rfl

/-- Concrete value of entry 7 of the block-size table. -/
lemma blockSize_getD_7 : BLOCK_SIZES.getD 7 0 = 1024 := rfl

/-- Concrete value of entry 8 of the block-size table. -/
lemma blockSize_getD_8 : BLOCK_SIZES.getD 8 0 = 2048 := rfl

/-- Every block size in the table is at least 8 bytes. -/
lemma eight_le_BLOCK_SIZES {i : Nat} (h : i < BLOCK_SIZES.length) :
    8 ≤ BLOCK_SIZES.getD i 0 := by
  simp only [BLOCK_SIZES, List.length_cons, List.length_nil] at h
  interval_cases i <;> decide

set_option maxHeartbeats 2000000 in
/-- C3: for every layout, the chosen size class is the smallest element of
the block-size table 8, 16, 32, 64, 128, 256, 512, 1024, 2048 that is at
least max(layout.size, layout.align); when no such element exists (the
maximum exceeds 2048) both alloc and dealloc delegate to the fallback
allocator with the original layout. -/
theorem C3_size_class_selection (fb : Layout → Option Nat)
    (heads : List (List Nat)) (ptr : Nat) (l : Layout) :
    (∀ i, list_index l = some i →
        BLOCK_SIZES.getD i 0 ∈ BLOCK_SIZES ∧
        l.size.max l.align ≤ BLOCK_SIZES.getD i 0 ∧
        ∀ s ∈ BLOCK_SIZES, l.size.max l.align ≤ s →
          BLOCK_SIZES.getD i 0 ≤ s) ∧
    (list_index l = none →
        2048 < l.size.max l.align ∧
        (FixedSizeBlockAllocator.alloc fb heads l).2.2 =
          AllocRoute.fallbackCall l ∧
        FixedSizeBlockAllocator.dealloc heads ptr l =
          some (DeallocRoute.toFallback l)) := by
  constructor
  · intro i hi
    rw [list_index_eq_cases] at hi
    split_ifs at hi with h1 h2 h3 h4 h5 h6 h7 h8 h9 <;>
      (injection hi with hi; subst hi) <;>
      refine ⟨by decide, by
        simp only [blockSize_getD_0, blockSize_getD_1, blockSize_getD_2,
          blockSize_getD_3, blockSize_getD_4, blockSize_getD_5,
          blockSize_getD_6, blockSize_getD_7, blockSize_getD_8]
        omega, ?_⟩ <;>
      (intro s hs hle
       unfold BLOCK_SIZES at hs
       fin_cases hs <;>
         simp only [blockSize_getD_0, blockSize_getD_1, blockSize_getD_2,
           blockSize_getD_3, blockSize_getD_4, blockSize_getD_5,
           blockSize_getD_6, blockSize_getD_7, blockSize_getD_8] <;>
         omega)
  · intro hnone
    have hgt : 2048 < l.size.max l.align := by
      have hc := list_index_eq_cases l
      rw [hnone] at hc
      split_ifs at hc
      omega
    refine ⟨hgt, ?_, ?_⟩
    · simp only [FixedSizeBlockAllocator.alloc, hnone]
    · simp only [FixedSizeBlockAllocator.dealloc, hnone]

/-- Witness for C3 at the concrete layout (size 3000, align 8). -/
theorem C3_size_class_selection_witness :
    list_index ⟨3000, 8⟩ = none ∧
    (2048 < (3000 : Nat).max 8 ∧
      (FixedSizeBlockAllocator.alloc (fun _ => none)
        [[], [], [], [], [], [], [], [], []] ⟨3000, 8⟩).2.2 =
        AllocRoute.fallbackCall ⟨3000, 8⟩ ∧
      FixedSizeBlockAllocator.dealloc [[], [], [], [], [], [], [], [], []] 0
        ⟨3000, 8⟩ = some (DeallocRoute.toFallback ⟨3000, 8⟩)) :=
  ⟨by decide,
    (C3_size_class_selection (fun _ => none)
      [[], [], [], [], [], [], [], [], []] 0 ⟨3000, 8⟩).2 (by decide)⟩

/-- C4: per-class LIFO round trip.  Deallocating a block pointer with a layout
of class i and then allocating with any layout of the same class returns
exactly that pointer and restores the free-list heads to their value before
the deallocation. -/
theorem C4_lifo_round_trip (fb : Layout → Option Nat)
    (heads : List (List Nat)) (hlen : heads.length = BLOCK_SIZES.length)
    (ptr : Nat) (l l2 : Layout) (i : Nat)
    (hl : list_index l = some i) (hl2 : list_index l2 = some i) :
    FixedSizeBlockAllocator.dealloc heads ptr l =
      some (DeallocRoute.toList (heads.set i (ptr :: heads.getD i []))) ∧
    FixedSizeBlockAllocator.alloc fb
        (heads.set i (ptr :: heads.getD i [])) l2 =
      (some ptr, heads, AllocRoute.popped i ptr) := by
  have hi : i < BLOCK_SIZES.length := list_index_lt_length hl
  have hhead : i < heads.length := by omega
  have h8 : 8 ≤ BLOCK_SIZES.getD i 0 := eight_le_BLOCK_SIZES hi
  constructor
  · simp only [FixedSizeBlockAllocator.dealloc, hl, sizeOfFsbListNode,
      alignOfFsbListNode]
    rw [if_pos ⟨h8, h8⟩]
  · simp only [FixedSizeBlockAllocator.alloc, hl2]
    rw [getD_set_self heads i (ptr :: heads.getD i []) [] hhead]
    simp only [set_set_self, set_getD_self heads i [] hhead]

/-- Witness for C4: a block at address 7 freed with class-0 layout
(size 8, align 1) and re-allocated with another class-0 layout
(size 5, align 8). -/
theorem C4_lifo_round_trip_witness :
    ([[], [], [], [], [], [], [], [], []] : List (List Nat)).length =
        BLOCK_SIZES.length ∧
    list_index ⟨8, 1⟩ = some 0 ∧ list_index ⟨5, 8⟩ = some 0 ∧
    (FixedSizeBlockAllocator.dealloc [[], [], [], [], [], [], [], [], []] 7
        ⟨8, 1⟩ =
      some (DeallocRoute.toList
        (([[], [], [], [], [], [], [], [], []] : List (List Nat)).set 0
          (7 :: ([[], [], [], [], [], [], [], [], []] :
            List (List Nat)).getD 0 []))) ∧
    FixedSizeBlockAllocator.alloc (fun _ => none)
        (([[], [], [], [], [], [], [], [], []] : List (List Nat)).set 0
          (7 :: ([[], [], [], [], [], [], [], [], []] :
            List (List Nat)).getD 0 [])) ⟨5, 8⟩ =
      (some 7, [[], [], [], [], [], [], [], [], []],
        AllocRoute.popped 0 7)) :=
  ⟨by decide, by decide, by decide,
    C4_lifo_round_trip (fun _ => none) [[], [], [], [], [], [], [], [], []]
      (by decide) 7 ⟨8, 1⟩ ⟨5, 8⟩ 0 (by decide) (by decide)⟩

/-- C10: whenever `list_index` selects a class, the ListNode size and
alignment (8 bytes each on x86_64) fit in the class, so the two asserts in
the dealloc path always succeed and dealloc is total on that branch. -/
theorem C10_dealloc_asserts_hold (heads : List (List Nat)) (ptr : Nat)
    (l : Layout) (i : Nat) (h : list_index l = some i) :
    sizeOfFsbListNode ≤ BLOCK_SIZES.getD i 0 ∧
    alignOfFsbListNode ≤ BLOCK_SIZES.getD i 0 ∧
    (FixedSizeBlockAllocator.dealloc heads ptr l).isSome := by
  have h8 : 8 ≤ BLOCK_SIZES.getD i 0 :=
    eight_le_BLOCK_SIZES (list_index_lt_length h)
  refine ⟨h8, h8, ?_⟩
  simp only [FixedSizeBlockAllocator.dealloc, h, sizeOfFsbListNode,
    alignOfFsbListNode]
  rw [if_pos ⟨h8, h8⟩]
  rfl

/-- Witness for C10 at the concrete layout (size 100, align 4), class 128. -/
theorem C10_dealloc_asserts_hold_witness :
    list_index ⟨100, 4⟩ = some 4 ∧
    (sizeOfFsbListNode ≤ BLOCK_SIZES.getD 4 0 ∧
      alignOfFsbListNode ≤ BLOCK_SIZES.getD 4 0 ∧
      (FixedSizeBlockAllocator.dealloc [] 0 ⟨100, 4⟩).isSome) :=
  ⟨by decide, C10_dealloc_asserts_hold [] 0 ⟨100, 4⟩ 4 (by decide)⟩

/-! ## Async executor (src/multitasking/src/task/executor.rs) -/

/-- CPU and interrupt operations performed by `Executor::sleep_if_idel`, in
program order.  `enableAndHlt` models
`x86_64::instructions::interrupts::enable_and_hlt`, the combined
sti-then-hlt pair in which pending interrupts fire only after the halt is
armed; `bareHlt` models a bare halt instruction, which the function never
issues. -/
inductive CpuAction where
  | disableInterrupts
  | enableInterrupts
  | enableAndHlt
  | bareHlt
deriving DecidableEq

/-- Translation of `Executor::sleep_if_idel`: the sequence of CPU actions it
performs, as a function of the `task_queue` contents observed while
interrupts are disabled. -/
def Executor.sleep_if_idel (task_queue : List Nat) : List CpuAction :=
  CpuAction.disableInterrupts ::
    (if task_queue.isEmpty then [CpuAction.enableAndHlt]
     else [CpuAction.enableInterrupts])

/-- C2: the sleep-if-idle step first disables interrupts and tests the queue;
it halts only when the queue was empty under disabled interrupts, and then
only through the combined enable-and-halt operation; when the queue was
non-empty it just re-enables interrupts, and a bare halt is never issued. -/
theorem C2_sleep_if_idel_halts_only_when_idle (q : List Nat) :
    (q ≠ [] → Executor.sleep_if_idel q =
      [CpuAction.disableInterrupts, CpuAction.enableInterrupts]) ∧
    (q = [] → Executor.sleep_if_idel q =
      [CpuAction.disableInterrupts, CpuAction.enableAndHlt]) ∧
    (q ≠ [] → CpuAction.enableAndHlt ∉ Executor.sleep_if_idel q) ∧
    CpuAction.bareHlt ∉ Executor.sleep_if_idel q := by
  rcases q with _ | ⟨x, xs⟩ <;> simp [Executor.sleep_if_idel]

/-- Witness for C2 at the concrete non-empty queue containing id 3. -/
theorem C2_sleep_if_idel_halts_only_when_idle_witness :
    ([3] : List Nat) ≠ [] ∧
    Executor.sleep_if_idel [3] =
      [CpuAction.disableInterrupts, CpuAction.enableInterrupts] ∧
    CpuAction.enableAndHlt ∉ Executor.sleep_if_idel [3] :=
  ⟨by decide,
    (C2_sleep_if_idel_halts_only_when_idle [3]).1 (by decide),
    (C2_sleep_if_idel_halts_only_when_idle [3]).2.2.1 (by decide)⟩

/-- Lookup in a map modelled as an association list (the executor uses a
`BTreeMap` from task id to value). -/
def mapLookup {β : Type} (id : Nat) : List (Nat × β) → Option β
  | [] => none
  | e :: es => if e.1 = id then some e.2 else mapLookup id es

/-- Insert for the association-list map: replaces the value when the key is
present (as `BTreeMap::insert` does), otherwise appends the entry. -/
def mapInsert {β : Type} (id : Nat) (v : β) : List (Nat × β) → List (Nat × β)
  | [] => [(id, v)]
  | e :: es => if e.1 = id then (id, v) :: es else e :: mapInsert id v es

/-- Removal of a key from the association-list map (`BTreeMap::remove`). -/
def mapRemove {β : Type} (id : Nat) (m : List (Nat × β)) : List (Nat × β) :=
  m.filter (fun e => e.1 != id)

/-- In-place update of the value stored under a key, as obtained through
`BTreeMap::get_mut` followed by mutation of the task. -/
def mapUpdate {β : Type} (id : Nat) (v : β) (m : List (Nat × β)) :
    List (Nat × β) :=
  m.map (fun e => if e.1 = id then (id, v) else e)

/-- Model of a `Task`: the future is abstracted as the list of results of its
successive polls (`true` = `Poll::Ready(())`). -/
structure TaskModel where
  polls : List Bool
deriving DecidableEq

/-- Polling a task: consume the next result of the future; an exhausted list
keeps returning pending. -/
def TaskModel.poll (t : TaskModel) : Bool × TaskModel :=
  match t.polls with
  | [] => (false, t)
  | r :: rest => (r, ⟨rest⟩)

/-- Result of `Executor::spawn`; `panicked` carries the executor state at the
moment of the panic (the map insert has already happened, nothing has been
pushed onto the queue). -/
inductive SpawnResult where
  | ok (tasks : List (Nat × TaskModel)) (task_queue : List Nat)
  | panicked (tasks : List (Nat × TaskModel)) (task_queue : List Nat)
deriving DecidableEq

/-- Translation of `Executor::spawn`: insert the task into `tasks` keyed by
its id, panic if the insert returned a previous task with that id, otherwise
push the id onto `task_queue` (an `ArrayQueue` of capacity 100 whose full
state is also a panic, via `expect`). -/
def Executor.spawn (tasks : List (Nat × TaskModel)) (task_queue : List Nat)
    (id : Nat) (t : TaskModel) : SpawnResult :=
  let old := mapLookup id tasks
  let tasks1 := mapInsert id t tasks
  match old with
  | some _ => SpawnResult.panicked tasks1 task_queue
  | none =>
    if task_queue.length < 100 then
      SpawnResult.ok tasks1 (task_queue ++ [id])
    else SpawnResult.panicked tasks1 task_queue

/-- C8: spawn inserts the task keyed by its id and then pushes the id onto
the queue; a duplicate id panics, and in that case nothing is pushed onto
the queue. -/
theorem C8_spawn_duplicate_id_panics (tasks : List (Nat × TaskModel))
    (task_queue : List Nat) (id : Nat) (t : TaskModel)
    (hq : task_queue.length < 100) :
    (mapLookup id tasks = none →
      Executor.spawn tasks task_queue id t =
        SpawnResult.ok (mapInsert id t tasks) (task_queue ++ [id])) ∧
    (mapLookup id tasks ≠ none →
      Executor.spawn tasks task_queue id t =
        SpawnResult.panicked (mapInsert id t tasks) task_queue) := by
  constructor
  · intro h
    simp [Executor.spawn, h, hq]
  · intro h
    rcases hsome : mapLookup id tasks with _ | v
    · exact absurd hsome h
    · simp [Executor.spawn, hsome]

/-- Witness for C8: spawning id 1 when a task with id 1 is already present
panics and pushes nothing. -/
theorem C8_spawn_duplicate_id_panics_witness :
    ([7] : List Nat).length < 100 ∧
    mapLookup 1 [(1, TaskModel.mk [])] ≠ none ∧
    Executor.spawn [(1, TaskModel.mk [])] [7] 1 (TaskModel.mk [false]) =
      SpawnResult.panicked (mapInsert 1 (TaskModel.mk [false])
        [(1, TaskModel.mk [])]) [7] :=
  ⟨by decide, by decide,
    (C8_spawn_duplicate_id_panics [(1, TaskModel.mk [])] [7] 1
      (TaskModel.mk [false]) (by decide)).2 (by decide)⟩

/-- Translation of `Executor::run_ready_tasks`: drain the queue; for each
popped id look up the task (skip when absent); obtain the cached waker,
creating and caching one on first use; poll the task; on Ready remove both
the task and its cached waker, on Pending keep both.  The waker cache is
modelled by its key set, a list of task ids. -/
def Executor.run_ready_tasks :
    List (Nat × TaskModel) → List Nat → List Nat →
    List (Nat × TaskModel) × List Nat
  | tasks, [], waker_cache => (tasks, waker_cache)
  | tasks, id :: rest, waker_cache =>
    match mapLookup id tasks with
    | none => Executor.run_ready_tasks tasks rest waker_cache
    | some t =>
      let cache1 :=
        if id ∈ waker_cache then waker_cache else waker_cache ++ [id]
      match t.poll with
      | (true, _) =>
        Executor.run_ready_tasks (mapRemove id tasks) rest
          (cache1.filter (fun c => c != id))
      | (false, t1) =>
        Executor.run_ready_tasks (mapUpdate id t1 tasks) rest cache1


/-- Looking a key up after removing a different key is unchanged. -/
lemma mapLookup_mapRemove_ne {β : Type} {x id : Nat} (h : x ≠ id)
    (m : List (Nat × β)) : mapLookup x (mapRemove id m) = mapLookup x m := by
  induction m with
  | nil => rfl
  | cons e es ih =>
    simp only [mapRemove] at ih ⊢
    by_cases h1 : e.1 = id
    · have hx : ¬ e.1 = x := by omega
      simp [List.filter_cons, h1, hx, mapLookup, ih, Ne.symm h]
    · by_cases h2 : e.1 = x
      · simp [List.filter_cons, h1, h2, h, mapLookup]
      · simp [List.filter_cons, h1, h2, mapLookup, ih]

/-- Updating the value under a key does not change which keys are present. -/
lemma mapLookup_mapUpdate_isSome {β : Type} (x id : Nat) (v : β)
    (m : List (Nat × β)) :
    (mapLookup x (mapUpdate id v m)).isSome = (mapLookup x m).isSome := by
  induction m with
  | nil => rfl
  | cons e es ih =>
    simp only [mapUpdate] at ih ⊢
    by_cases h1 : e.1 = id
    · by_cases h2 : e.1 = x
      · have h3 : id = x := by omega
        simp [mapLookup, h1, h2, h3]
      · have h3 : ¬ id = x := by omega
        simp [mapLookup, h1, h2, h3, ih]
    · by_cases h2 : e.1 = x
      · have h3 : ¬ x = id := by omega
        simp [mapLookup, h1, h2, h3]
      · simp [mapLookup, h1, h2, ih]

/-- C6: one drain pass preserves the executor invariant that every id with a
cached waker still has its task in the map: polled tasks get their waker
created and cached, a Ready task is removed together with its cached waker,
a Pending task keeps both, and ids without a task are skipped.  Hence after
every drain pass the waker-cache keys are a subset of the task-map keys, and
a completed task never leaves a waker behind. -/
theorem C6_waker_cache_subset_of_tasks (tasks : List (Nat × TaskModel))
    (task_queue waker_cache : List Nat)
    (h : ∀ id ∈ waker_cache, (mapLookup id tasks).isSome = true) :
    ∀ id ∈ (Executor.run_ready_tasks tasks task_queue waker_cache).2,
      (mapLookup id
        (Executor.run_ready_tasks tasks task_queue waker_cache).1).isSome =
        true := by
  induction task_queue generalizing tasks waker_cache with
  | nil =>
    intro id hid
    simp only [Executor.run_ready_tasks] at hid ⊢
    exact h id hid
  | cons q rest ih =>
    cases hlook : mapLookup q tasks with
    | none =>
      simp only [Executor.run_ready_tasks, hlook]
      exact ih tasks waker_cache h
    | some t =>
      rcases hpoll : t.poll with ⟨ready, t1⟩
      cases ready
      · simp only [Executor.run_ready_tasks, hlook, hpoll]
        apply ih
        intro x hx
        rw [mapLookup_mapUpdate_isSome]
        by_cases hc : q ∈ waker_cache
        · simp only [hc, if_true] at hx
          exact h x hx
        · simp [hc] at hx
          rcases hx with hx | rfl
          · exact h x hx
          · simp [hlook]
      · simp only [Executor.run_ready_tasks, hlook, hpoll]
        apply ih
        intro x hx
        rw [List.mem_filter] at hx
        obtain ⟨hx1, hx2⟩ := hx
        have hxq : x ≠ q := by simpa using hx2
        rw [mapLookup_mapRemove_ne hxq]
        by_cases hc : q ∈ waker_cache
        · simp only [hc, if_true] at hx1
          exact h x hx1
        · simp [hc] at hx1
          rcases hx1 with hx1 | rfl
          · exact h x hx1
          · exact absurd rfl hxq

/-- Witness for C6: a drain pass over queue ids 0, 1 and stale id 7, where
task 0 completes on its first poll and task 1 stays pending. -/
theorem C6_waker_cache_subset_of_tasks_witness :
    (∀ id ∈ ([1] : List Nat),
      (mapLookup id [(0, TaskModel.mk [true]),
        (1, TaskModel.mk [false])]).isSome = true) ∧
    (∀ id ∈ (Executor.run_ready_tasks
        [(0, TaskModel.mk [true]), (1, TaskModel.mk [false])] [0, 1, 7]
        [1]).2,
      (mapLookup id (Executor.run_ready_tasks
        [(0, TaskModel.mk [true]), (1, TaskModel.mk [false])] [0, 1, 7]
        [1]).1).isSome = true) :=
  ⟨by decide,
    C6_waker_cache_subset_of_tasks
      [(0, TaskModel.mk [true]), (1, TaskModel.mk [false])] [0, 1, 7] [1]
      (by decide)⟩

/-! ## Scancode stream (src/multitasking/src/task/keyboard.rs) -/

/-- State seen by `ScancodeStream::poll_next`: the scancode queue (front of
the list is popped first) and the single-slot atomic waker cell. -/
structure ScancodeState where
  queue : List Nat
  waker : Option Nat
deriving DecidableEq

/-- Result of one `poll_next` call. -/
inductive PollNextResult where
  | ready (scancode : Nat)
  | pending
deriving DecidableEq

/-- Translation of `Stream::poll_next` for `ScancodeStream`.  The keyboard
interrupt handler may enqueue concurrently; `pushedBetween` lists the
scancodes it pushes between the first pop and the second pop (the race the
re-check closes).  `callerWaker` is the waker of the polling task.  Returns
the poll result, the resulting state, and the number of pop operations
performed. -/
def ScancodeStream.poll_next (s : ScancodeState) (pushedBetween : List Nat)
    (callerWaker : Nat) : PollNextResult × ScancodeState × Nat :=
  match s.queue with
  | c :: rest => (PollNextResult.ready c, ⟨rest, s.waker⟩, 1)
  | [] =>
    match pushedBetween with
    | c :: rest => (PollNextResult.ready c, ⟨rest, none⟩, 2)
    | [] => (PollNextResult.pending, ⟨[], some callerWaker⟩, 2)

/-- C7: poll_next pops once and returns ready on a hit, leaving the waker
slot untouched; on a miss it registers the caller waker and pops exactly
once more: a second-pop hit removes the registered waker and returns ready,
otherwise it returns pending with the caller waker left registered. -/
theorem C7_poll_next_recheck (s : ScancodeState) (pushedBetween : List Nat)
    (callerWaker : Nat) :
    (∀ c rest, s.queue = c :: rest →
      ScancodeStream.poll_next s pushedBetween callerWaker =
        (PollNextResult.ready c, ⟨rest, s.waker⟩, 1)) ∧
    (∀ c rest, s.queue = [] → pushedBetween = c :: rest →
      ScancodeStream.poll_next s pushedBetween callerWaker =
        (PollNextResult.ready c, ⟨rest, none⟩, 2)) ∧
    (s.queue = [] → pushedBetween = [] →
      ScancodeStream.poll_next s pushedBetween callerWaker =
        (PollNextResult.pending, ⟨[], some callerWaker⟩, 2)) := by
  refine ⟨?_, ?_, ?_⟩
  · intro c rest hq
    simp [ScancodeStream.poll_next, hq]
  · intro c rest hq hp
    simp [ScancodeStream.poll_next, hq, hp]
  · intro hq hp
    simp [ScancodeStream.poll_next, hq, hp]

/-- Witness for C7: an empty queue with scancode 30 arriving between the two
pops is returned ready and the waker slot is cleared. -/
theorem C7_poll_next_recheck_witness :
    (ScancodeState.mk [] none).queue = [] ∧
    ScancodeStream.poll_next ⟨[], none⟩ [30] 5 =
      (PollNextResult.ready 30, ⟨[], none⟩, 2) :=
  ⟨rfl, (C7_poll_next_recheck ⟨[], none⟩ [30] 5).2.1 30 [] rfl rfl⟩

/-! ## Descriptor tables (src/interrupts/src/gdt.rs and
src/blog_os/multitasking/src/interrupts.rs) -/

/-- The IST slot reserved for the double-fault handler
(`DOUBLE_FAULT_IST_INDEX`). -/
def DOUBLE_FAULT_IST_INDEX : Nat := 0

/-- Size in bytes of the statically allocated double-fault stack
(`STACK_SIZE = 4096 * 5`). -/
def STACK_SIZE : Nat := 4096 * 5

/-- The interrupt stack table of the TSS after initialization, as a function
of the start address of the static `STACK` byte array:
`TaskStateSegment::new` zero-fills all seven slots, then slot
`DOUBLE_FAULT_IST_INDEX` is set to the one-past-the-end address
`stack_start + STACK_SIZE`. -/
def TSS.interrupt_stack_table (stack_start : Nat) : Fin 7 → Nat :=
  Function.update (fun _ => 0)
    ⟨DOUBLE_FAULT_IST_INDEX, by decide⟩ (stack_start + STACK_SIZE)

/-- The handlers installed in the IDT by the multitasking kernel. -/
inductive IdtHandler where
  | breakpoint
  | doubleFault
  | timer
  | keyboard
  | pageFault
deriving DecidableEq

/-- One installed IDT entry: its handler and the IST stack index option
set through `set_stack_index`. -/
structure IdtEntry where
  handler : IdtHandler
  stackIndex : Option Nat
deriving DecidableEq

/-- The IDT entries installed by `lazy_static! IDT` in
src/blog_os/multitasking/src/interrupts.rs: only the double-fault entry
carries a stack index, namely `DOUBLE_FAULT_IST_INDEX`. -/
def IDT_entries : List IdtEntry :=
  [⟨IdtHandler.breakpoint, none⟩,
   ⟨IdtHandler.doubleFault, some DOUBLE_FAULT_IST_INDEX⟩,
   ⟨IdtHandler.timer, none⟩,
   ⟨IdtHandler.keyboard, none⟩,
   ⟨IdtHandler.pageFault, none⟩]

/-- C9: IST entry 0 of the TSS holds the one-past-the-end address of a
dedicated static byte array of at least 20 KiB (20480 bytes), and the
double-fault entry is the only IDT entry configured with an IST stack
index, namely index 0. -/
theorem C9_double_fault_stack (stack_start : Nat) :
    20480 ≤ STACK_SIZE ∧
    TSS.interrupt_stack_table stack_start ⟨DOUBLE_FAULT_IST_INDEX, by decide⟩
      = stack_start + STACK_SIZE ∧
    IDT_entries.filter (fun e => e.stackIndex.isSome) =
      [⟨IdtHandler.doubleFault, some 0⟩] := by
  refine ⟨by decide, ?_, by decide⟩
  simp [TSS.interrupt_stack_table]

/-! ## Boot-info frame allocator (src/memory/src/memory.rs) -/

/-- Region type tag of a bootloader memory-map entry; everything except
`Usable` is collapsed into `Reserved`, since only the `Usable` tag is
inspected by the allocator. -/
inductive MemoryRegionType where
  | Usable
  | Reserved
deriving DecidableEq

/-- One entry of the bootloader memory map: a start address, a one-past-the-
end address and a region type. -/
structure MemoryRegion where
  start_addr : Nat
  end_addr : Nat
  region_type : MemoryRegionType
deriving DecidableEq

/-- Translation of `(start..stop).step_by(4096)`: the addresses
`start, start + 4096, ...` strictly below `stop`. -/
def step_by_4096 (start stop : Nat) : List Nat :=
  (List.range ((stop - start + 4095) / 4096)).map (fun k => start + 4096 * k)

/-- Translation of `PhysFrame::containing_address`: align the address down
to its 4 KiB frame start. -/
def containing_address (addr : Nat) : Nat := addr - addr % 4096

/-- The boot-info frame allocator: a reference to the memory map and the
monotone cursor `next`. -/
structure BootInfoFrameAllocator where
  memory_map : List MemoryRegion
  next : Nat
deriving DecidableEq

/-- Translation of `BootInfoFrameAllocator::init`. -/
def BootInfoFrameAllocator.init (memory_map : List MemoryRegion) :
    BootInfoFrameAllocator :=
  ⟨memory_map, 0⟩

/-- Translation of `BootInfoFrameAllocator::usable_frames`: filter the
memory map down to `Usable` regions, turn each region into its address
range, step every range by 4096, flatten, and form the frame containing
each address. -/
def BootInfoFrameAllocator.usable_frames (a : BootInfoFrameAllocator) :
    List Nat :=
  let regions := a.memory_map
  let usable_regions :=
    regions.filter (fun r => r.region_type == MemoryRegionType.Usable)
  let addr_ranges := usable_regions.map (fun r => (r.start_addr, r.end_addr))
  let frame_addresses :=
    (addr_ranges.map (fun p => step_by_4096 p.1 p.2)).flatten
  frame_addresses.map containing_address

/-- Translation of `FrameAllocator::allocate_frame`: take element `next` of
the freshly recomputed usable-frame enumeration, then increment `next`. -/
def BootInfoFrameAllocator.allocate_frame (a : BootInfoFrameAllocator) :
    Option Nat × BootInfoFrameAllocator :=
  let frame := a.usable_frames.get? a.next
  (frame, { a with next := a.next + 1 })

/-- The allocator state after N successive `allocate_frame` calls. -/
def BootInfoFrameAllocator.afterCalls (a : BootInfoFrameAllocator) :
    Nat → BootInfoFrameAllocator
  | 0 => a
  | n + 1 => ((a.afterCalls n).allocate_frame).2

/-- The enumeration of frame start addresses named by the claim: the
concatenation, over the memory-map regions tagged Usable, of each region
stepped in 4096-byte increments from its start address. -/
def usableFrameStartAddrs (memory_map : List MemoryRegion) : List Nat :=
  ((memory_map.filter
      (fun r => r.region_type == MemoryRegionType.Usable)).map
    (fun r => step_by_4096 r.start_addr r.end_addr)).flatten

/-- The code enumeration is the claimed enumeration mapped through
frame alignment. -/
lemma usable_frames_eq_map (mm : List MemoryRegion) (next : Nat) :
    (BootInfoFrameAllocator.mk mm next).usable_frames =
      (usableFrameStartAddrs mm).map containing_address := by
  simp [BootInfoFrameAllocator.usable_frames, usableFrameStartAddrs,
    List.map_flatten, List.map_map]
  rfl

/-- Aligning an already 4096-aligned address is the identity. -/
lemma containing_address_of_aligned {a : Nat} (h : a % 4096 = 0) :
    containing_address a = a := by
  simp [containing_address, h]

/-- All addresses stepped from an aligned region start are aligned. -/
lemma mem_step_by_4096_aligned {s e a : Nat} (hs : s % 4096 = 0)
    (ha : a ∈ step_by_4096 s e) : a % 4096 = 0 := by
  simp only [step_by_4096, List.mem_map, List.mem_range] at ha
  obtain ⟨k, -, rfl⟩ := ha
  omega

/-- Mapping the identity-on-aligned function over an aligned list. -/
lemma map_containing_of_aligned {l : List Nat}
    (h : ∀ a ∈ l, a % 4096 = 0) : l.map containing_address = l := by
  induction l with
  | nil => rfl
  | cons a as ih =>
    rw [List.map_cons, containing_address_of_aligned (h a (by simp)),
      ih (fun x hx => h x (by simp [hx]))]

/-- Every address in the claimed enumeration is 4096-aligned when all
usable region starts are. -/
lemma usableFrameStartAddrs_aligned (mm : List MemoryRegion)
    (halign : ∀ r ∈ mm, r.region_type = MemoryRegionType.Usable →
      r.start_addr % 4096 = 0) :
    ∀ a ∈ usableFrameStartAddrs mm, a % 4096 = 0 := by
  intro a ha
  simp only [usableFrameStartAddrs, List.mem_flatten, List.mem_map] at ha
  obtain ⟨l, ⟨r, hr, rfl⟩, hal⟩ := ha
  rw [List.mem_filter] at hr
  obtain ⟨hmm, htag⟩ := hr
  exact mem_step_by_4096_aligned
    (halign r hmm (by simpa using htag)) hal

/-- C5: starting from a fresh allocator, the N-th `allocate_frame` call (the
cursor having advanced by exactly one per call and the memory map being
re-read each call) returns element N of the concatenated 4096-stepped
enumeration of the Usable regions, and `none` when that enumeration has
fewer than N+1 entries; region starts are 4 KiB aligned as the bootloader
guarantees. -/
theorem C5_allocate_frame_enumeration (mm : List MemoryRegion) (N : Nat)
    (halign : ∀ r ∈ mm, r.region_type = MemoryRegionType.Usable →
      r.start_addr % 4096 = 0) :
    (BootInfoFrameAllocator.init mm).afterCalls N =
      BootInfoFrameAllocator.mk mm N ∧
    (((BootInfoFrameAllocator.init mm).afterCalls N).allocate_frame).1 =
      (usableFrameStartAddrs mm).get? N ∧
    (∀ a : BootInfoFrameAllocator,
      (a.allocate_frame).2.next = a.next + 1) := by
  have hstate : ∀ n : Nat,
      (BootInfoFrameAllocator.init mm).afterCalls n =
        BootInfoFrameAllocator.mk mm n := by
    intro n
    induction n with
    | zero => rfl
    | succ k ih =>
      simp [BootInfoFrameAllocator.afterCalls, ih,
        BootInfoFrameAllocator.allocate_frame]
  refine ⟨hstate N, ?_, fun a => rfl⟩
  rw [hstate N]
  simp only [BootInfoFrameAllocator.allocate_frame]
  rw [usable_frames_eq_map,
    map_containing_of_aligned (usableFrameStartAddrs_aligned mm halign)]

/-- Witness for C5: a map with two usable regions (two frames at 0 and one
frame at 65536) and one reserved region; the third call returns the frame
at 65536. -/
theorem C5_allocate_frame_enumeration_witness :
    (∀ r ∈ [MemoryRegion.mk 0 8192 MemoryRegionType.Usable,
            MemoryRegion.mk 8192 16384 MemoryRegionType.Reserved,
            MemoryRegion.mk 65536 69632 MemoryRegionType.Usable],
      r.region_type = MemoryRegionType.Usable →
        r.start_addr % 4096 = 0) ∧
    (((BootInfoFrameAllocator.init
        [MemoryRegion.mk 0 8192 MemoryRegionType.Usable,
         MemoryRegion.mk 8192 16384 MemoryRegionType.Reserved,
         MemoryRegion.mk 65536 69632 MemoryRegionType.Usable]).afterCalls
        2).allocate_frame).1 =
      (usableFrameStartAddrs
        [MemoryRegion.mk 0 8192 MemoryRegionType.Usable,
         MemoryRegion.mk 8192 16384 MemoryRegionType.Reserved,
         MemoryRegion.mk 65536 69632 MemoryRegionType.Usable]).get? 2 :=
  ⟨by decide,
    (C5_allocate_frame_enumeration
      [MemoryRegion.mk 0 8192 MemoryRegionType.Usable,
       MemoryRegion.mk 8192 16384 MemoryRegionType.Reserved,
       MemoryRegion.mk 65536 69632 MemoryRegionType.Usable] 2
      (by decide)).2.1⟩

/-! ## Linked-list allocator (src/memory/src/allocator/linked_list.rs) -/

/-- The usize modulus: the allocator arithmetic is 64-bit. -/
def USIZE_MOD : Nat := 2 ^ 64

/-- Translation of `fn align_up` in src/memory/src/allocator.rs:
`(addr + align - 1) & !(align - 1)`, with the usize complement of
`align - 1` written as `2^64 - align` (align is a nonzero power of two). -/
def align_up (addr align : Nat) : Nat :=
  (addr + align - 1) &&& (USIZE_MOD - align)

/-- A free region of the linked-list allocator free list, described by the
in-band `ListNode`: its start address and its size. -/
structure Region where
  addr : Nat
  size : Nat
deriving DecidableEq

/-- Translation of `ListNode::end_addr`: `start_addr + size`. -/
def Region.end_addr (r : Region) : Nat := r.addr + r.size

/-- Size in bytes of `linked_list::ListNode` on x86_64: a usize plus an
optional static mutable node pointer, 8 + 8 bytes. -/
def sizeOfLLListNode : Nat := 16

/-- Alignment in bytes of `linked_list::ListNode` on x86_64. -/
def alignOfLLListNode : Nat := 8

/-- Translation of `LinkedListAllocator::alloc_from_region` as written in
the source: `none` models `Err(())`.  The first test is the line commented
"region too small", which reads `alloc_end < region.end_addr()`.  The
excess-size subtraction is usize arithmetic, modelled with its release-mode
wrapping semantics. -/
def LinkedListAllocator.alloc_from_region (region : Region)
    (size align : Nat) : Option Nat :=
  let alloc_start := align_up region.addr align
  if USIZE_MOD ≤ alloc_start + size then none
  else
    let alloc_end := alloc_start + size
    if alloc_end < region.end_addr then none
    else
      let excess_size := (region.end_addr + USIZE_MOD - alloc_end) % USIZE_MOD
      if 0 < excess_size ∧ excess_size < sizeOfLLListNode then none
      else some alloc_start

/-- Translation of `LinkedListAllocator::find_region`: walk the free list,
return the first region accepted by `alloc_from_region` together with the
allocation start address, removing that region from the list. -/
def LinkedListAllocator.find_region :
    List Region → Nat → Nat → Option ((Region × Nat) × List Region)
  | [], _, _ => none
  | r :: rest, size, align =>
    match LinkedListAllocator.alloc_from_region r size align with
    | some alloc_start => some ((r, alloc_start), rest)
    | none =>
      (LinkedListAllocator.find_region rest size align).map
        (fun p => (p.1, r :: p.2))

/-- Translation of `LinkedListAllocator::size_align`: raise the alignment to
that of a `ListNode`, pad the size to a multiple of the alignment, and
enforce the minimum size of a `ListNode`. -/
def LinkedListAllocator.size_align (l : Layout) : Nat × Nat :=
  let adjusted_align := l.align.max alignOfLLListNode
  let padded_size := align_up l.size adjusted_align
  (padded_size.max sizeOfLLListNode, adjusted_align)

/-- Translation of `GlobalAlloc::alloc` for `Locked<LinkedListAllocator>`:
adjust the layout, search the free list, and on success push any excess
back onto the front of the free list (`add_free_region`; its alignment and
minimum-size asserts are not modelled because the claim is settled on the
search path).  Returns the pointer (`none` = null) and the new free list. -/
def LinkedListAllocator.alloc (free_list : List Region) (l : Layout) :
    Option Nat × List Region :=
  let sa := LinkedListAllocator.size_align l
  match LinkedListAllocator.find_region free_list sa.1 sa.2 with
  | some ((region, alloc_start), rest) =>
    let alloc_end := alloc_start + sa.1
    let excess_size := (region.end_addr + USIZE_MOD - alloc_end) % USIZE_MOD
    if 0 < excess_size then
      (some alloc_start, Region.mk alloc_end excess_size :: rest)
    else
      (some alloc_start, rest)
  | none => (none, free_list)

/-- The satisfiability criterion the claim states: after aligning the region
start up to the requested alignment, the request fits in the region, and the
leftover tail is either zero or large enough to hold a free-list node. -/
def can_satisfy (region : Region) (size align : Nat) : Prop :=
  align_up region.addr align + size ≤ region.end_addr ∧
  (region.end_addr - (align_up region.addr align + size) = 0 ∨
    sizeOfLLListNode ≤ region.end_addr - (align_up region.addr align + size))

instance (region : Region) (size align : Nat) :
    Decidable (can_satisfy region size align) := by
  unfold can_satisfy
  infer_instance

/-- C1 evaluation at the failing input: the free region at address 4096 of
size 96 easily satisfies the padded 16-byte, 8-aligned request (excess 80
can hold a node), yet `alloc_from_region` rejects it through its inverted
`alloc_end < region.end_addr()` comparison (commented "region too small" in
the source), so `alloc` returns null with the list unchanged.  Conversely a
24-byte region cannot satisfy a 32-byte request, but the same inverted
comparison accepts it under wrapping excess arithmetic. -/
theorem C1_alloc_rejects_satisfiable_region :
    can_satisfy ⟨4096, 96⟩ 16 8 ∧
    LinkedListAllocator.size_align ⟨16, 8⟩ = (16, 8) ∧
    LinkedListAllocator.alloc_from_region ⟨4096, 96⟩ 16 8 = none ∧
    LinkedListAllocator.alloc [⟨4096, 96⟩] ⟨16, 8⟩ = (none, [⟨4096, 96⟩]) ∧
    ¬ can_satisfy ⟨4096, 24⟩ 32 8 ∧
    LinkedListAllocator.alloc_from_region ⟨4096, 24⟩ 32 8 = some 4096 := by
  decide
